import Mathlib

/-!
Verification development for the Slack-RAG candidate association and
context-building engine.

The definitions below are a shallow embedding of the Python sources
`src/candidate_extractor.py`, `src/slack_rag_backend.py` and
`src/generate_digest.py`.  Python dicts with string keys are embedded as
insertion-ordered association lists (`dset` is `d[k] = v`, `dlookup` is
`d.get(k)`, `dappend` is the `setdefault`/append idiom), `msg.get(key)`
of an optional field is an `Option`, Python truthiness of an optional
string is `truthy`, `a or b` on optional strings is `pyOr`, and the
Python substring test `needle in haystack` is `pyIn`.  External
collaborators (the Anthropic client, the chroma collection, the SQLite
data store, user/channel name lookup, timestamp formatting) are
injected as function parameters, mirroring how the source reaches them
through `self`.
-/

namespace SlackRag

/-- Python truthiness of `msg.get(k)` for a string-valued key:
`None` and `""` are falsy. -/
def truthy : Option String → Bool
  | none => false
  | some s => !(s == "")

/-- Python `a or b` for optional strings (used for
`msg.get('id') or msg.get('ts')`). -/
def pyOr (a b : Option String) : Option String :=
  match a with
  | some s => if s = "" then b else some s
  | none => b

/-- Python `a or b` where the fallback is a plain string
(used for `msg.get('channel_name') or self._get_channel_name(...)`). -/
def pyOrS (a : Option String) (b : String) : String :=
  match a with
  | some s => if s = "" then b else s
  | none => b

/-- List-of-characters prefix test (Boolean). -/
def isPrefixB : List Char → List Char → Bool
  | [], _ => true
  | _ :: _, [] => false
  | a :: as, b :: bs => a == b && isPrefixB as bs

/-- Boolean substring containment on character lists. -/
def containsB (needle : List Char) : List Char → Bool
  | [] => needle.isEmpty
  | c :: cs => isPrefixB needle (c :: cs) || containsB needle cs

/-- Python `needle in haystack` on strings. -/
def pyIn (needle haystack : String) : Bool :=
  containsB needle.data haystack.data

/-- Python `str.lower()` (character-wise; the sources only lower-case
ASCII names and message text). -/
def lowerStr (s : String) : String :=
  ⟨s.data.map Char.toLower⟩

/-- Python `str.strip()`: drop leading and trailing whitespace. -/
def pyStrip (s : String) : String :=
  ⟨((s.data.dropWhile Char.isWhitespace).reverse.dropWhile Char.isWhitespace).reverse⟩

/-- `d[k] = v` on an insertion-ordered dict embedded as an association
list: overwrite the first (for the dicts built here, only) occurrence
of the key in place, else append. -/
def dset {κ ν : Type} [DecidableEq κ] : List (κ × ν) → κ → ν → List (κ × ν)
  | [], k, v => [(k, v)]
  | e :: es, k, v => if e.1 = k then (k, v) :: es else e :: dset es k v

/-- `d.get(k)` on an association list (first matching key). -/
def dlookup {κ ν : Type} [DecidableEq κ] : List (κ × ν) → κ → Option ν
  | [], _ => none
  | e :: es, k => if e.1 = k then some e.2 else dlookup es k

/-- The `if k not in d: d[k] = []` / `d[k].append(v)` grouping idiom. -/
def dappend {κ ν : Type} [DecidableEq κ] : List (κ × List ν) → κ → ν → List (κ × List ν)
  | [], k, v => [(k, [v])]
  | e :: es, k, v => if e.1 = k then (e.1, e.2 ++ [v]) :: es else e :: dappend es k v

/-- A Slack message dict, with the keys the embedded code reads.
Optional fields are keys that may be absent from the dict. -/
structure Msg where
  id : Option String
  ts : Option String
  thread_ts : Option String
  timestamp : Option String
  user : String
  text : String
  channel_id : Option String
  channel_name : Option String
  datetime : Option String
deriving DecidableEq

/-- A candidate record as built by `CandidateExtractor.extract_candidates`. -/
structure Cand where
  name : String
  linkedin_url : String
  message_id : Option String
  timestamp : Option String
  channel : String
  user : String
  text : String
deriving DecidableEq

/-- One association bundle `{'anchor':..., 'threads':[], 'direct':[], 'fuzzy':[]}`. -/
structure Bundle where
  anchor : Cand
  threads : List Msg
  direct : List Msg
  fuzzy : List Msg
deriving DecidableEq

/-- A fresh bundle for a newly extracted anchor. -/
def freshBundle (c : Cand) : Bundle := ⟨c, [], [], []⟩

/-- The mutable state of a `CandidateExtractor`.  In the source,
`candidate_map[url]` and `associations[url]['anchor']` are always
written together with the same candidate, so `candidate_map` is
embedded as the anchor projection of `associations`
(see `candidate_map_of`). -/
structure ExtractorState where
  candidates : List Cand
  associations : List (String × Bundle)
deriving DecidableEq

/-- The freshly constructed extractor (`CandidateExtractor.__init__`). -/
def initState : ExtractorState := ⟨[], []⟩

/-! ### The LINKEDIN_REGEX scanner

`LINKEDIN_REGEX = re.compile(r'<(https?://(?:www\.)?linkedin\.com/in/[^>|]+)\|([^>]+)>')`.

`linkMatch` decides whether a match of this pattern starts at the head
of the character list and returns (group 1, group 2, rest-of-input).
The pattern is deterministic: each alternative/optional part is
disambiguated by its first character and each greedy character class is
bounded by a character excluded from the class, so no backtracking can
produce a different match.  `linkFinditer` is `re.finditer`: try a
match at each position left to right, resuming after each match. -/

/-- Drop an exact literal prefix, or fail. -/
def dropLit : List Char → List Char → Option (List Char)
  | [], cs => some cs
  | _ :: _, [] => none
  | p :: ps, c :: cs => if p = c then dropLit ps cs else none

/-- Match `https?://` at the head. -/
def protoMatch (cs : List Char) : Option (List Char × List Char) :=
  match dropLit "https://".data cs with
  | some r => some ("https://".data, r)
  | none =>
    match dropLit "http://".data cs with
    | some r => some ("http://".data, r)
    | none => none

/-- Match the optional `(?:www\.)?`. -/
def wwwOpt (cs : List Char) : List Char × List Char :=
  match dropLit "www.".data cs with
  | some r => ("www.".data, r)
  | none => ([], cs)

/-- Match `LINKEDIN_REGEX` at the head of the input (see above). -/
def linkMatch (cs : List Char) : Option (List Char × List Char × List Char) :=
  match cs with
  | [] => none
  | c :: r0 =>
    if c = '<' then
      match protoMatch r0 with
      | none => none
      | some (proto, r1) =>
        let (www, r2) := wwwOpt r1
        match dropLit "linkedin.com/in/".data r2 with
        | none => none
        | some r3 =>
          let seg := r3.takeWhile (fun ch => !(ch == '>' || ch == '|'))
          let r4 := r3.dropWhile (fun ch => !(ch == '>' || ch == '|'))
          if seg.isEmpty then none else
          match r4 with
          | '|' :: r5 =>
            let lab := r5.takeWhile (fun ch => !(ch == '>'))
            let r6 := r5.dropWhile (fun ch => !(ch == '>'))
            if lab.isEmpty then none else
            match r6 with
            | '>' :: r7 => some (proto ++ www ++ "linkedin.com/in/".data ++ seg, lab, r7)
            | _ => none
          | _ => none
    else none

/-- `re.finditer` scan; the fuel starts at the input length and at every
step either one character is consumed or a match (consuming at least
one character) is emitted, so the fuel never runs out early. -/
def linkFinditer : Nat → List Char → List (List Char × List Char)
  | 0, _ => []
  | _ + 1, [] => []
  | n + 1, c :: rest =>
    match linkMatch (c :: rest) with
    | some (g1, g2, r) => (g1, g2) :: linkFinditer n r
    | none => linkFinditer n rest

/-- All `(group 1, group 2)` matches of `LINKEDIN_REGEX` in a string. -/
def LINKEDIN_REGEX_findall (s : String) : List (String × String) :=
  (linkFinditer s.data.length s.data).map (fun p => (⟨p.1⟩, ⟨p.2⟩))

/-- `CandidateExtractor.extract_candidates(messages, channel_name)`:
for each message and each regex match, build the candidate record,
append it to `candidates`, and (re)set `candidate_map[url]` and
`associations[url]` (the latter with fresh empty lists). -/
def extract_candidates (st : ExtractorState) (messages : List Msg) (channel_name : String) :
    ExtractorState :=
  messages.foldl (fun st msg =>
    (LINKEDIN_REGEX_findall msg.text).foldl (fun st mtch =>
      let candidate : Cand :=
        { name := pyStrip mtch.2
          linkedin_url := pyStrip mtch.1
          message_id := pyOr msg.id msg.ts
          timestamp := msg.ts
          channel := channel_name
          user := msg.user
          text := msg.text }
      { candidates := st.candidates ++ [candidate]
        associations := dset st.associations (pyStrip mtch.1) (freshBundle candidate) })
      st)
    st

/-- `candidate_map.items()`, derived from the associations
(the source keeps the two dicts in lockstep). -/
def candidate_map_of (st : ExtractorState) : List (String × Cand) :=
  st.associations.map (fun e => (e.1, e.2.anchor))

/-- `thread_map = {c['anchor']['message_id']: url for url, c in associations.items()}`. -/
def thread_map_of (associations : List (String × Bundle)) : List (Option String × String) :=
  associations.foldl (fun d e => dset d e.2.anchor.message_id e.1) []

/-- `associations[url]['threads'].append(msg)`. -/
def append_threads (st : ExtractorState) (url : String) (m : Msg) : ExtractorState :=
  { st with associations := st.associations.map (fun e =>
      if e.1 = url then (e.1, { e.2 with threads := e.2.threads ++ [m] }) else e) }

/-- The per-message test of `associate_threads`:
`thread_ts and thread_ts in thread_map and msg.get('ts') != thread_ts`,
returning `thread_map[thread_ts]` when it holds. -/
def thread_target (tm : List (Option String × String)) (m : Msg) : Option String :=
  if truthy m.thread_ts && !(decide (m.ts = m.thread_ts)) then dlookup tm m.thread_ts
  else none

/-- The message loop of `associate_threads` (the thread map is computed
once, before the loop). -/
def go_threads (tm : List (Option String × String)) : List Msg → ExtractorState → ExtractorState
  | [], st => st
  | m :: ms, st =>
    match thread_target tm m with
    | some url => go_threads tm ms (append_threads st url m)
    | none => go_threads tm ms st

/-- `CandidateExtractor.associate_threads(messages)`. -/
def associate_threads (st : ExtractorState) (messages : List Msg) : ExtractorState :=
  go_threads (thread_map_of st.associations) messages st

/-- `url in text or name.lower() in text.lower()`. -/
def mention_cond (text url : String) (cand : Cand) : Bool :=
  pyIn url text || pyIn (lowerStr cand.name) (lowerStr text)

/-- The full append condition of `associate_direct_mentions` for one
message/candidate pair: the mention test, minus the anchor skip
(`msg.get('id') == candidate['message_id']`), with the thread guard
(`not msg.get('thread_ts') or msg.get('thread_ts') != candidate['message_id']`). -/
def direct_cond (m : Msg) (url : String) (cand : Cand) : Bool :=
  mention_cond m.text url cand
    && !(decide (m.id = cand.message_id))
    && (!(truthy m.thread_ts) || !(decide (m.thread_ts = cand.message_id)))

/-- `associations[url]['direct'].append(msg)`. -/
def append_direct (st : ExtractorState) (url : String) (m : Msg) : ExtractorState :=
  { st with associations := st.associations.map (fun e =>
      if e.1 = url then (e.1, { e.2 with direct := e.2.direct ++ [m] }) else e) }

/-- The candidate loop of `associate_direct_mentions` for one message. -/
def go_direct_inner (m : Msg) : List (String × Cand) → ExtractorState → ExtractorState
  | [], st => st
  | (url, cand) :: rest, st =>
    go_direct_inner m rest (if direct_cond m url cand then append_direct st url m else st)

/-- The message loop of `associate_direct_mentions`. -/
def go_direct (cmap : List (String × Cand)) : List Msg → ExtractorState → ExtractorState
  | [], st => st
  | m :: ms, st => go_direct cmap ms (go_direct_inner m cmap st)

/-- `CandidateExtractor.associate_direct_mentions(messages)`. -/
def associate_direct_mentions (st : ExtractorState) (messages : List Msg) : ExtractorState :=
  go_direct (candidate_map_of st) messages st

/-- `associations[url]['fuzzy'].append(msg)`. -/
def append_fuzzy (st : ExtractorState) (url : String) (m : Msg) : ExtractorState :=
  { st with associations := st.associations.map (fun e =>
      if e.1 = url then (e.1, { e.2 with fuzzy := e.2.fuzzy ++ [m] }) else e) }

/-- The skip test of `associate_fuzzy`:
`msg in associations[url]['threads'] or msg in associations[url]['direct']
or msg.get('id') == candidate['message_id']`. -/
def fuzzy_skip (st : ExtractorState) (url : String) (cand : Cand) (m : Msg) : Bool :=
  let b := (dlookup st.associations url).getD (freshBundle cand)
  decide (m ∈ b.threads) || decide (m ∈ b.direct) || decide (m.id = cand.message_id)

/-- The candidate loop of `associate_fuzzy` for one message.  The
semantic-search collaborator (`rag_backend.semantic_search(text,
n_results=3, channel=channel_name)`) is injected as `search`; an
exception from it is an `Except.error`, which propagates: the second
component of the result is the escaped exception, `none` when the loop
completed. -/
def go_fuzzy_inner (search : String → Except String (List String)) (m : Msg) :
    List (String × Cand) → ExtractorState → ExtractorState × Option String
  | [], st => (st, none)
  | (url, cand) :: rest, st =>
    if fuzzy_skip st url cand m then go_fuzzy_inner search m rest st
    else
      match search m.text with
      | .error e => (st, some e)
      | .ok top_docs =>
        go_fuzzy_inner search m rest
          (if pyIn cand.name (String.join top_docs) then append_fuzzy st url m else st)

/-- The message loop of `associate_fuzzy`; an escaped exception aborts
the remaining messages as well. -/
def go_fuzzy (search : String → Except String (List String)) (cmap : List (String × Cand)) :
    List Msg → ExtractorState → ExtractorState × Option String
  | [], st => (st, none)
  | m :: ms, st =>
    match go_fuzzy_inner search m cmap st with
    | (st', none) => go_fuzzy search cmap ms st'
    | (st', some e) => (st', some e)

/-- `CandidateExtractor.associate_fuzzy(messages, rag_backend, channel_name)`.
The result pairs the (partially) updated state with the exception that
escaped the call, if any. -/
def associate_fuzzy (st : ExtractorState) (messages : List Msg)
    (search : String → Except String (List String)) : ExtractorState × Option String :=
  go_fuzzy search (candidate_map_of st) messages st

/-- The three association stages run in their fixed order over one
channel's corpus, after extraction. -/
def run_pipeline (messages : List Msg) (channel_name : String)
    (search : String → Except String (List String)) : ExtractorState × Option String :=
  let st0 := extract_candidates initState messages channel_name
  let st1 := associate_threads st0 messages
  let st2 := associate_direct_mentions st1 messages
  associate_fuzzy st2 messages search

/-! ### `SlackRAGBackend.optimize_query_with_claude` and `semantic_search`

The Anthropic completion call is the injected `claude_call`; an
exception from it is an `Except.error` carrying `str(e)`.  The chroma
collection query is the injected `collection_query`, receiving the
query text, `n_results` and the `where` filter the code builds. -/

/-- The `where` filter built by `semantic_search` from the optional
channel and date bounds. -/
structure WhereFilter where
  channel : Option String
  datetime_gte : Option String
  datetime_lte : Option String
deriving DecidableEq

/-- `SlackRAGBackend.optimize_query_with_claude(query)`: ask Claude for
an optimized query; on any exception return the error string
`"[ERROR] Claude API error: {e}"` (the exception is swallowed, not
re-raised). -/
def optimize_query_with_claude (claude_call : String → Except String String)
    (query : String) : String :=
  match claude_call ("Optimize the following query for better search results: " ++ query) with
  | .ok text => text
  | .error e => "[ERROR] Claude API error: " ++ e

/-- `SlackRAGBackend.semantic_search(query, n_results, channel,
start_date, end_date)`: the query is first passed through the
optimizer, and whatever string comes back is what is searched. -/
def semantic_search (claude_call : String → Except String String)
    (collection_query : String → Nat → WhereFilter → List String)
    (query : String) (n_results : Nat) (channel start_date end_date : Option String) :
    List String :=
  let optimized_query := optimize_query_with_claude claude_call query
  collection_query optimized_query n_results ⟨channel, start_date, end_date⟩

/-! ### The `linkedin_pattern` of `SlackDigestGenerator.enrich_message`

`r'(?:https?://)?(?:www\.)?linkedin\.com/in/([^>\s|]+)(?:\|([^>]+))?'`.

Again the pattern is deterministic: the optional protocol and `www.`
prefixes start with `h`/`w` while the mandatory literal starts with
`l`, so at any position at most one alternative can begin a match, and
the greedy classes are bounded by excluded characters.  Group 1 is the
profile slug; group 2 is the optional pipe-delimited label. -/

/-- Match the `linkedin_pattern` at the head of the input, returning
(group 1, optional group 2, rest). -/
def profileMatch (cs : List Char) : Option (List Char × Option (List Char) × List Char) :=
  let after_proto : List Char :=
    match protoMatch cs with
    | some pr => pr.2
    | none => cs
  let after_www : List Char := (wwwOpt after_proto).2
  match dropLit "linkedin.com/in/".data after_www with
  | none => none
  | some r1 =>
    let slug := r1.takeWhile (fun ch => !(ch == '>' || ch == '|' || ch.isWhitespace))
    let r2 := r1.dropWhile (fun ch => !(ch == '>' || ch == '|' || ch.isWhitespace))
    if slug.isEmpty then none else
    match r2 with
    | '|' :: r3 =>
      let lab := r3.takeWhile (fun ch => !(ch == '>'))
      let r4 := r3.dropWhile (fun ch => !(ch == '>'))
      if lab.isEmpty then some (slug, none, r2) else some (slug, some lab, r4)
    | _ => some (slug, none, r2)

/-- `re.finditer` scan for the profile pattern (fuel as in `linkFinditer`). -/
def profileFinditer : Nat → List Char → List (List Char × Option (List Char))
  | 0, _ => []
  | _ + 1, [] => []
  | n + 1, c :: rest =>
    match profileMatch (c :: rest) with
    | some (g1, g2, r) => (g1, g2) :: profileFinditer n r
    | none => profileFinditer n rest

/-- All `(group 1, optional group 2)` matches of the profile pattern. -/
def linkedin_pattern_findall (s : String) : List (List Char × Option (List Char)) :=
  profileFinditer s.data.length s.data

/-- One entry of `enriched_msg['linkedin_profiles']`. -/
structure Profile where
  name : String
  url : String
deriving DecidableEq

/-- The LinkedIn-profile extraction of `enrich_message`:
`profile = match.group(1)`, `name = match.group(2) if match.group(2)
else profile`, `url = f"https://linkedin.com/in/{profile}"`. -/
def linkedin_profiles_of (text : String) : List Profile :=
  (linkedin_pattern_findall text).map (fun p =>
    let profile : String := ⟨p.1⟩
    let nm : String := match p.2 with
      | some lab => ⟨lab⟩
      | none => profile
    ⟨nm, "https://linkedin.com/in/" ++ profile⟩)

/-! ### Timestamp keys and sorting

`float(x.get('ts', 0))` / `float(x.get('ts', msg.get('timestamp', 0)))`
parse the decimal timestamp string; its value is embedded exactly as
the pair (numerator, denominator) of the decimal, compared by cross
multiplication.  `list.sort(key=...)` is a stable ascending sort,
embedded as insertion sort (also stable). -/

/-- Value of a digit run (the sources only compare well-formed decimal
timestamp strings). -/
def digitsVal (cs : List Char) : Nat :=
  cs.foldl (fun n c => n * 10 + (c.toNat - '0'.toNat)) 0

/-- The decimal string `a.b` as the exact fraction (numerator, denominator). -/
def decVal (s : String) : Nat × Nat :=
  let intPart := s.data.takeWhile (fun c => !(c == '.'))
  let rest := s.data.dropWhile (fun c => !(c == '.'))
  match rest with
  | [] => (digitsVal intPart, 1)
  | _ :: frac => (digitsVal intPart * 10 ^ frac.length + digitsVal frac, 10 ^ frac.length)

/-- The sort/filter key `float(x.get('ts', 0))` of a message. -/
def msg_ts_key (m : Msg) : Nat × Nat :=
  decVal (m.ts.getD "0")

/-- Timestamp comparison of two messages (cross-multiplied fractions). -/
def ts_le (a b : Msg) : Prop :=
  (msg_ts_key a).1 * (msg_ts_key b).2 ≤ (msg_ts_key b).1 * (msg_ts_key a).2

instance : DecidableRel ts_le := fun _ _ => Nat.decLe _ _

instance : IsTotal Msg ts_le :=
  ⟨fun a b => Nat.le_total ((msg_ts_key a).1 * (msg_ts_key b).2) ((msg_ts_key b).1 * (msg_ts_key a).2)⟩

instance : IsTrans Msg ts_le := ⟨by
  intro a b c hab hbc
  have hden : ∀ s : String, 0 < (decVal s).2 := by
    intro s
    unfold decVal
    cases s.data.dropWhile (fun ch => !(ch == '.')) with
    | nil => exact Nat.one_pos
    | cons ch frac => exact pow_pos (by norm_num) frac.length
  have hb : 0 < (msg_ts_key b).2 := hden _
  unfold ts_le at hab hbc ⊢
  have h1 := Nat.mul_le_mul_right (msg_ts_key c).2 hab
  have h2 := Nat.mul_le_mul_right (msg_ts_key a).2 hbc
  have key : (msg_ts_key a).1 * (msg_ts_key c).2 * (msg_ts_key b).2
      ≤ (msg_ts_key c).1 * (msg_ts_key a).2 * (msg_ts_key b).2 := by
    calc (msg_ts_key a).1 * (msg_ts_key c).2 * (msg_ts_key b).2
        = (msg_ts_key a).1 * (msg_ts_key b).2 * (msg_ts_key c).2 := by ring
      _ ≤ (msg_ts_key b).1 * (msg_ts_key a).2 * (msg_ts_key c).2 := h1
      _ = (msg_ts_key b).1 * (msg_ts_key c).2 * (msg_ts_key a).2 := by ring
      _ ≤ (msg_ts_key c).1 * (msg_ts_key b).2 * (msg_ts_key a).2 := h2
      _ = (msg_ts_key c).1 * (msg_ts_key a).2 * (msg_ts_key b).2 := by ring
  exact Nat.le_of_mul_le_mul_right key hb⟩

/-- `thread_msgs.sort(key=lambda x: float(x.get('ts', 0)))`. -/
def sort_by_ts (l : List Msg) : List Msg :=
  List.insertionSort ts_le l

/-! ### `SlackRAGBackend.build_claude_context_with_all_thread_replies`

The data-store fetch `get_messages_by_date_range(start_ts or 0,
end_ts or inf, channel_id)` is the injected `messages` list.  The
semantic-search section is injected as `semantic_results`: in the
source this call returns a list of document *strings* on which the loop
then calls `.get(...)` (an `AttributeError` whenever non-empty); it is
modelled with the message fields the loop's accesses expect.  User and
channel name lookups and `datetime.fromtimestamp(float(ts)).strftime`
formatting are injected pure functions. -/

/-- One rendered thread of the `=== Thread Replies ===` section:
the group key `thread_ts`, the parent found in the fetched set, and the
replies in sorted order. -/
structure ThreadBlock where
  root_ts : Option String
  parent : Msg
  replies : List Msg
deriving DecidableEq

/-- `thread_messages`: group the fetched messages by
`msg.get('thread_ts', msg.get('ts'))` in insertion order. -/
def thread_groups (messages : List Msg) : List (Option String × List Msg) :=
  messages.foldl (fun d m => dappend d (m.thread_ts.orElse (fun _ => m.ts)) m) []

/-- The per-thread processing: sort by timestamp, look for the parent
(`next((msg for msg in thread_msgs if msg.get('ts') == thread_ts),
None)`) and `continue` — drop the thread — when there is none. -/
def thread_blocks (messages : List Msg) : List ThreadBlock :=
  (thread_groups messages).filterMap (fun e =>
    match (sort_by_ts e.2).find? (fun m => decide (m.ts = e.1)) with
    | some parent =>
      some ⟨e.1, parent, (sort_by_ts e.2).filter (fun m => !(decide (m.ts = e.1)))⟩
    | none => none)

/-- The rendered lines of one thread block. -/
def render_thread_block (get_user_name : String → String)
    (get_channel_name : Option String → String) (fmt_ts : String → String)
    (b : ThreadBlock) : List String :=
  ["\nThread started by: " ++ get_user_name b.parent.user,
   "Parent message: " ++ b.parent.text,
   "Channel: " ++ pyOrS b.parent.channel_name (get_channel_name b.parent.channel_id),
   "Timestamp: " ++ fmt_ts (b.root_ts.getD "")]
  ++ (match b.replies with
      | [] => []
      | rs => "\nReplies:" :: rs.flatMap (fun r =>
          ["- " ++ get_user_name r.user ++ ": " ++ r.text,
           "  " ++ fmt_ts (r.ts.getD "0")]))
  ++ ["---"]

/-- `SlackRAGBackend.build_claude_context_with_all_thread_replies`. -/
def build_claude_context_with_all_thread_replies (get_user_name : String → String)
    (get_channel_name : Option String → String) (fmt_ts : String → String)
    (semantic_results : List Msg) (messages : List Msg) : String :=
  let sem_blocks : List String :=
    if semantic_results = [] then []
    else "=== Semantic Search Results ===" :: semantic_results.flatMap (fun r =>
      ["Message: " ++ r.text,
       "Channel: " ++ pyOrS r.channel_name (get_channel_name r.channel_id),
       "User: " ++ get_user_name r.user,
       "Timestamp: " ++ fmt_ts (r.ts.getD "0"),
       "---"])
  let blocks := sem_blocks ++ ["\n=== Thread Replies ==="]
    ++ (thread_blocks messages).flatMap (render_thread_block get_user_name get_channel_name fmt_ts)
  String.intercalate "\n" blocks

/-! ### The two definitions of `SlackRAGBackend.build_claude_context_by_candidate`

The class body defines `build_claude_context_by_candidate` twice; the
second definition shadows the first, so the bound method is the second
one.  Both call `CandidateExtractor.extract_candidates(msg.get('text',
''))` with one argument where `(messages, channel_name)` are required —
a `TypeError` at runtime; the call is modelled as the extractor's regex
applied to the message text (the evident intent), yielding
`(name, linkedin_url)` pairs. -/

/-- The candidates "extracted" from one message's text
(stripped groups of `LINKEDIN_REGEX`, as `extract_candidates` builds them). -/
def extract_candidates_from_text (text : String) : List (String × String) :=
  (LINKEDIN_REGEX_findall text).map (fun p => (pyStrip p.2, pyStrip p.1))

/-- The thread replies collected for an anchor message by both
`build_claude_context_by_candidate` definitions:
`[m for m in messages if m.get('thread_ts') == thread_ts and
m.get('ts') != thread_ts]` with `thread_ts = msg.get('thread_ts',
msg.get('ts'))`.  No sort is applied: the data-store order is kept. -/
def by_candidate_replies (messages : List Msg) (msg : Msg) : List Msg :=
  let thread_ts := msg.thread_ts.orElse (fun _ => msg.ts)
  messages.filter (fun r => decide (r.thread_ts = thread_ts) && !(decide (r.ts = thread_ts)))

/-- One candidate block of the *first* (shadowed) definition: the
submission line, then either the feedback lines or the literal
`no feedback from client` fallback plus the follow-up instruction. -/
def candidate_block_first (name submission_date : String) (feedbacks : List String) : String :=
  let base := "- " ++ name ++ " - submitted " ++ submission_date
  match feedbacks with
  | [] =>
    base ++ "\n  no feedback from client"
      ++ "\n  status: Follow up with client to see if they're interested."
  | f :: rest =>
    (rest.foldl (fun acc fb => acc ++ "\n  additional feedback: " ++ fb)
      (base ++ "\n  feedback: " ++ f))
      ++ "\n  status: (Claude, please infer status from feedback above)"

/-- The *first* (shadowed) `build_claude_context_by_candidate`:
group candidate blocks by channel, then emit each channel header
followed by its blocks, joined by blank lines. -/
def build_claude_context_by_candidate_first (get_user_name : String → String)
    (get_channel_name : Option String → String) (messages : List Msg) : String :=
  let channel_candidates : List (String × List String) :=
    messages.foldl (fun cc msg =>
      let candidates := extract_candidates_from_text msg.text
      if candidates = [] then cc
      else
        let channel_name := pyOrS msg.channel_name (get_channel_name msg.channel_id)
        let submission_date := msg.datetime.getD (msg.ts.getD "")
        let feedbacks := (by_candidate_replies messages msg).map (fun reply =>
          "\x22" ++ reply.text ++ "\x22 (by " ++ get_user_name reply.user ++ ")")
        candidates.foldl (fun cc2 cand =>
          dappend cc2 channel_name (candidate_block_first cand.1 submission_date feedbacks)) cc)
      []
  let context_blocks := channel_candidates.foldl (fun acc e => acc ++ [e.1] ++ e.2) []
  String.intercalate "\n\n" context_blocks

/-- One candidate block of the *second* (effective) definition, as its
list of lines; when there are no replies the block is just the five
header lines — no fallback line is emitted. -/
def candidate_block_second (get_user_name : String → String) (name url : String)
    (msg : Msg) (channel_name user_name : String) (replies : List Msg) : List String :=
  let block := ["Candidate: " ++ name ++ " (" ++ url ++ ")",
                "Submission: " ++ msg.text,
                "Channel: " ++ channel_name,
                "Submitted by: " ++ user_name,
                "Timestamp: " ++ msg.datetime.getD (msg.ts.getD "")]
  if replies = [] then block
  else block ++ ["Feedback/Updates:"] ++ replies.map (fun reply =>
    "- " ++ get_user_name reply.user ++ ": " ++ reply.text
      ++ " [" ++ reply.datetime.getD (reply.ts.getD "") ++ "]")

/-- The *second* (shadowing, hence effective) `build_claude_context_by_candidate`. -/
def build_claude_context_by_candidate_second (get_user_name : String → String)
    (get_channel_name : Option String → String) (messages : List Msg) : String :=
  let candidate_blocks : List String :=
    messages.foldl (fun acc msg =>
      let candidates := extract_candidates_from_text msg.text
      if candidates = [] then acc
      else
        let channel_name := pyOrS msg.channel_name (get_channel_name msg.channel_id)
        let user_name := get_user_name msg.user
        let replies := by_candidate_replies messages msg
        acc ++ candidates.map (fun cand =>
          String.intercalate "\n"
            (candidate_block_second get_user_name cand.1 cand.2 msg channel_name user_name replies)
          ++ "\n---"))
      []
  String.intercalate "\n\n" candidate_blocks

/-! ### `SlackDigestGenerator.get_date_range`

A `datetime` is embedded at day granularity: `day` is a calendar-day
index with the convention that `day ≡ 0 (mod 7)` is a Monday, so that
`weekday()` (Monday = 0) is `day % 7`; hour/minute/second/microsecond
are carried explicitly, and `tz_aware` records whether the value
carries a `tzinfo`.  `datetime.now(self.timezone)` always yields an
aware value.  `pytz`'s `localize` raises
`ValueError('Not naive datetime (tzinfo is already set)')` on an aware
value.  `datetime.replace(hour=..., minute=..., second=...)` does not
touch the microsecond field.  Date strings are embedded by the day
index `strptime` would produce.  The final `.timestamp()` conversion is
immaterial to the claim and is not modelled. -/

structure PyDateTime where
  day : Int
  hour : Nat
  minute : Nat
  second : Nat
  microsecond : Nat
  tz_aware : Bool
deriving DecidableEq

/-- `datetime.weekday()`: 0 = Monday. -/
def weekday (d : PyDateTime) : Int := d.day % 7

/-- `d - timedelta(days=n)`. -/
def sub_days (d : PyDateTime) (n : Int) : PyDateTime := { d with day := d.day - n }

/-- `d + timedelta(days=n)`. -/
def add_days (d : PyDateTime) (n : Int) : PyDateTime := { d with day := d.day + n }

/-- `d.replace(hour=h, minute=m, second=s)` — the microsecond survives. -/
def replace_hms (d : PyDateTime) (h m s : Nat) : PyDateTime :=
  { d with hour := h, minute := m, second := s }

/-- `self.timezone.localize(d)` under `pytz`. -/
def localize (d : PyDateTime) : Except String PyDateTime :=
  if d.tz_aware then Except.error "ValueError: Not naive datetime (tzinfo is already set)"
  else Except.ok { d with tz_aware := true }

/-- `datetime.strptime(s, "%Y-%m-%d")`: a naive midnight value. -/
def strptime_ymd (day : Int) : PyDateTime := ⟨day, 0, 0, 0, 0, false⟩

/-- `SlackDigestGenerator.get_date_range(start_date_str, end_date_str)`
given the current time `now = datetime.now(self.timezone)`. -/
def get_date_range (start_date_str end_date_str : Option Int) (now : PyDateTime) :
    Except String (PyDateTime × PyDateTime) := do
  let start_date ←
    match start_date_str with
    | some d => localize (replace_hms (strptime_ymd d) 0 0 0)
    | none => localize (replace_hms (sub_days now (weekday now + 7)) 0 0 0)
  let end_date ←
    match end_date_str with
    | some d => localize (replace_hms (strptime_ymd d) 23 59 59)
    | none => Except.ok (replace_hms (add_days start_date 6) 23 59 59)
  Except.ok (start_date, end_date)

/-! ### Concrete fixtures used by witnesses and counterexamples -/

/-- An anchor message: carries a LinkedIn link, no `id` key, not a thread
message. -/
def msg_anchor : Msg :=
  ⟨none, some "1", none, none, "dk", "Meet <https://linkedin.com/in/jane|Jane Doe> today",
    some "C1", none, none⟩

/-- A thread reply to `msg_anchor`. -/
def msg_reply : Msg :=
  ⟨none, some "2", some "1", none, "client", "sounds good", some "C1", none, none⟩

/-- A message mentioning nothing, on which the fuzzy judge will error. -/
def msg_ping : Msg :=
  ⟨none, some "3", none, none, "client", "ping", some "C1", none, none⟩

/-- A later message the fuzzy judge would associate, were it reached. -/
def msg_update : Msg :=
  ⟨none, some "4", none, none, "client", "moving forward with her", some "C1", none, none⟩

/-- The extracted profile key of `msg_anchor`. -/
def url_jane : String := "https://linkedin.com/in/jane"

/-- A judge that raises on `msg_ping`'s text and matches otherwise. -/
def search_boom : String → Except String (List String) :=
  fun t => if t = "ping" then .error "judge down" else .ok ["2024 [acme] Jane Doe update"]

/-- A judge that never raises and always matches. -/
def search_ok : String → Except String (List String) :=
  fun _ => .ok ["2024 [acme] Jane Doe update"]

/-- A thread parent with two replies arriving out of timestamp order. -/
def msg_parent : Msg := ⟨none, some "1", none, none, "dk", "kickoff", some "C1", none, none⟩

/-- The later reply (ts 10.25), stored first. -/
def msg_late : Msg := ⟨none, some "10.25", some "1", none, "a", "late reply", some "C1", none, none⟩

/-- The earlier reply (ts 2.5), stored second. -/
def msg_early : Msg := ⟨none, some "2.5", some "1", none, "b", "early reply", some "C1", none, none⟩

/-- A thread reply whose root (ts 100) is outside the fetched set. -/
def msg_orphan : Msg :=
  ⟨none, some "150", some "100", none, "client", "root is out of range", some "C1", none, none⟩

/-- A message whose text is a bare profile URL (no angle brackets). -/
def msg_bare : Msg :=
  ⟨none, some "5", none, none, "dk", "https://www.linkedin.com/in/jdoe2", some "C1", none, none⟩

/-- The candidate record extracted from `msg_anchor`. -/
def cand_jane : Cand :=
  ⟨"Jane Doe", url_jane, some "1", some "1", "acme", "dk",
    "Meet <https://linkedin.com/in/jane|Jane Doe> today"⟩

/-- The final bundle of `cand_jane` after the pipeline over
`[msg_anchor, msg_reply]` with the always-matching judge. -/
def bundle_jane_final : Bundle := ⟨cand_jane, [msg_reply], [msg_anchor], []⟩

/-! ### The exclusivity invariant -/

/-- The per-bundle facts the three association stages establish: every
thread reply targets this candidate's anchor (so the direct stage's
guard excludes it), every direct mention fails that test, and every
fuzzy match was absent from both earlier lists when appended. -/
def entry_ok (e : String × Bundle) : Prop :=
  (∀ m ∈ e.2.threads, truthy m.thread_ts = true ∧ m.thread_ts = e.2.anchor.message_id)
  ∧ (∀ m ∈ e.2.direct, ¬(truthy m.thread_ts = true ∧ m.thread_ts = e.2.anchor.message_id))
  ∧ (∀ m ∈ e.2.fuzzy, m ∉ e.2.threads ∧ m ∉ e.2.direct)

/-- The state-level invariant: unique keys, and every bundle is `entry_ok`. -/
def state_ok (st : ExtractorState) : Prop :=
  (st.associations.map Prod.fst).Nodup ∧ ∀ e ∈ st.associations, entry_ok e

end SlackRag

/-! ## Theorems -/

namespace SlackRag

/-! ### Association-list lemmas -/

theorem dlookup_dset {κ ν : Type} [DecidableEq κ] (d : List (κ × ν)) (k k' : κ) (v : ν) :
    dlookup (dset d k v) k' = if k' = k then some v else dlookup d k' := by
  induction d with
  | nil =>
    simp only [dset, dlookup]
    by_cases hk : k' = k
    · simp [hk]
    · rw [if_neg (fun h : k = k' => hk h.symm), if_neg hk]
  | cons e es ih =>
    by_cases he : e.1 = k
    · by_cases hk : k' = k
      · subst hk
        simp [dset, dlookup, he]
      · have hek : ¬ (e.1 = k') := fun h => hk (h ▸ he.symm ▸ rfl)
        simp only [dset, if_pos he, dlookup]
        rw [if_neg (fun h : k = k' => hk h.symm), if_neg hk, if_neg (he.symm ▸ hek)]
    · by_cases hk : k' = k
      · subst hk
        have hek : ¬ (e.1 = k') := he
        simp [dset, dlookup, he, hek, ih]
      · simp only [dset, if_neg he, dlookup, ih, if_neg hk]

theorem dlookup_some_mem {κ ν : Type} [DecidableEq κ] (d : List (κ × ν)) (k : κ) (v : ν)
    (h : dlookup d k = some v) : (k, v) ∈ d := by
  induction d with
  | nil => simp [dlookup] at h
  | cons e es ih =>
    by_cases he : e.1 = k
    · simp only [dlookup, if_pos he, Option.some.injEq] at h
      refine List.mem_cons.mpr (Or.inl ?_)
      rw [← he, ← h]
    · simp only [dlookup, if_neg he] at h
      exact List.mem_cons_of_mem _ (ih h)

theorem dlookup_of_mem_nodup {κ ν : Type} [DecidableEq κ] (d : List (κ × ν)) (k : κ) (v : ν)
    (hnd : (d.map Prod.fst).Nodup) (hm : (k, v) ∈ d) : dlookup d k = some v := by
  induction d with
  | nil => simp at hm
  | cons e es ih =>
    simp only [List.map_cons, List.nodup_cons] at hnd
    rcases List.mem_cons.mp hm with heq | hmem
    · rw [← heq]
      simp [dlookup]
    · have hne : e.1 ≠ k := by
        intro hk
        refine hnd.1 ?_
        rw [hk]
        exact List.mem_map_of_mem Prod.fst hmem
      simp only [dlookup, if_neg hne]
      exact ih hnd.2 hmem

theorem find?_eq_of_mem_keys_nodup {κ ν : Type} [DecidableEq κ] (l : List (κ × ν)) (k : κ) (v : ν)
    (hnd : (l.map Prod.fst).Nodup) (hm : (k, v) ∈ l) :
    l.find? (fun p => decide (p.1 = k)) = some (k, v) := by
  induction l with
  | nil => simp at hm
  | cons e es ih =>
    simp only [List.map_cons, List.nodup_cons] at hnd
    rcases List.mem_cons.mp hm with heq | hmem
    · rw [← heq]
      exact List.find?_cons_of_pos _ (by simp)
    · have hne : e.1 ≠ k := by
        intro hk
        refine hnd.1 ?_
        rw [hk]
        exact List.mem_map_of_mem Prod.fst hmem
      rw [List.find?_cons_of_neg _ (by simp [hne])]
      exact ih hnd.2 hmem

theorem nodup_keys_inj {κ ν : Type} (l : List (κ × ν)) (hnd : (l.map Prod.fst).Nodup)
    {a b : κ × ν} (ha : a ∈ l) (hb : b ∈ l) (hk : a.1 = b.1) : a = b := by
  induction l with
  | nil => simp at ha
  | cons e es ih =>
    simp only [List.map_cons, List.nodup_cons] at hnd
    rcases List.mem_cons.mp ha with rfl | ha'
    · rcases List.mem_cons.mp hb with rfl | hb'
      · rfl
      · refine absurd ?_ hnd.1
        rw [hk]
        exact List.mem_map_of_mem Prod.fst hb'
    · rcases List.mem_cons.mp hb with rfl | hb'
      · refine absurd ?_ hnd.1
        rw [← hk]
        exact List.mem_map_of_mem Prod.fst ha'
      · exact ih hnd.2 ha' hb'

theorem mem_dset {κ ν : Type} [DecidableEq κ] (d : List (κ × ν)) (k : κ) (v : ν)
    (e : κ × ν) (he : e ∈ dset d k v) : e ∈ d ∨ e = (k, v) := by
  induction d with
  | nil => simpa [dset] using he
  | cons e₀ es ih =>
    by_cases h0 : e₀.1 = k
    · simp only [dset, if_pos h0, List.mem_cons] at he
      rcases he with heq | hmem
      · exact Or.inr heq
      · exact Or.inl (List.mem_cons_of_mem _ hmem)
    · simp only [dset, if_neg h0, List.mem_cons] at he
      rcases he with heq | hmem
      · exact Or.inl (List.mem_cons.mpr (Or.inl heq))
      · rcases ih hmem with h | h
        · exact Or.inl (List.mem_cons_of_mem _ h)
        · exact Or.inr h

theorem keys_dset_subset {κ ν : Type} [DecidableEq κ] (d : List (κ × ν)) (k : κ) (v : ν)
    (x : κ) (hx : x ∈ (dset d k v).map Prod.fst) : x ∈ d.map Prod.fst ∨ x = k := by
  rcases List.mem_map.mp hx with ⟨e, he, hex⟩
  rcases mem_dset d k v e he with h | h
  · exact Or.inl (hex ▸ List.mem_map_of_mem Prod.fst h)
  · right
    rw [← hex, h]

theorem dset_keys_nodup {κ ν : Type} [DecidableEq κ] (d : List (κ × ν)) (k : κ) (v : ν)
    (hnd : (d.map Prod.fst).Nodup) : ((dset d k v).map Prod.fst).Nodup := by
  induction d with
  | nil => simp [dset]
  | cons e es ih =>
    simp only [List.map_cons, List.nodup_cons] at hnd
    by_cases h0 : e.1 = k
    · simp only [dset, if_pos h0, List.map_cons, List.nodup_cons]
      exact ⟨h0 ▸ hnd.1, hnd.2⟩
    · simp only [dset, if_neg h0, List.map_cons, List.nodup_cons]
      refine ⟨?_, ih hnd.2⟩
      intro hmem
      rcases keys_dset_subset es k v e.1 hmem with h | h
      · exact hnd.1 h
      · exact h0 h

theorem foldl_preserves {α σ : Type} (P : σ → Prop) (f : σ → α → σ)
    (h : ∀ s a, P s → P (f s a)) : ∀ (l : List α) (s : σ), P s → P (l.foldl f s) := by
  intro l
  induction l with
  | nil => intro s hs; exact hs
  | cons a l ih => intro s hs; exact ih _ (h s a hs)

theorem dlookup_foldl_dset {α κ ν : Type} [DecidableEq κ] (key : α → κ) (val : α → ν) :
    ∀ (l : List α) (init : List (κ × ν)) (k : κ) (v : ν),
      dlookup (l.foldl (fun d a => dset d (key a) (val a)) init) k = some v →
      (∃ a ∈ l, key a = k ∧ val a = v) ∨ dlookup init k = some v := by
  intro l
  induction l with
  | nil => intro init k v h; exact Or.inr h
  | cons a l ih =>
    intro init k v h
    rcases ih _ k v h with ⟨a', ha', hk, hv⟩ | hbase
    · exact Or.inl ⟨a', List.mem_cons_of_mem _ ha', hk, hv⟩
    · rw [dlookup_dset] at hbase
      by_cases hk : k = key a
      · rw [if_pos hk] at hbase
        exact Or.inl ⟨a, List.mem_cons_self a l, hk.symm, (Option.some.injEq _ _).mp hbase⟩
      · rw [if_neg hk] at hbase
        exact Or.inr hbase

theorem dlookup_map_val {κ ν ν' : Type} [DecidableEq κ] (l : List (κ × ν)) (g : κ × ν → ν')
    (k : κ) :
    dlookup (l.map (fun e => (e.1, g e))) k = (l.find? (fun e => decide (e.1 = k))).map g := by
  induction l with
  | nil => rfl
  | cons e es ih =>
    by_cases he : e.1 = k
    · simp only [List.map_cons, dlookup, if_pos he]
      rw [List.find?_cons_of_pos _ (by simp [he])]
      rfl
    · simp only [List.map_cons, dlookup, if_neg he]
      rw [List.find?_cons_of_neg _ (by simp [he])]
      exact ih

theorem foldl_congr_mem {α σ : Type} (l : List α) (f g : σ → α → σ)
    (h : ∀ s, ∀ a ∈ l, f s a = g s a) : ∀ init, l.foldl f init = l.foldl g init := by
  induction l with
  | nil => intro init; rfl
  | cons a l ih =>
    intro init
    rw [List.foldl_cons, List.foldl_cons, h init a (List.mem_cons_self a l)]
    exact ih (fun s a' ha' => h s a' (List.mem_cons_of_mem _ ha')) _

/-! ### Stage characterizations -/

/-- The thread stage appends, to every candidate's `threads` list, the
sub-sequence of messages whose `thread_target` is that candidate's key;
nothing else changes. -/
theorem go_threads_char (tm : List (Option String × String)) (msgs : List Msg)
    (st : ExtractorState) :
    go_threads tm msgs st = { st with associations := st.associations.map (fun e =>
      (e.1, { e.2 with threads := (e.2.threads
        ++ msgs.filter (fun m => decide (thread_target tm m = some e.1))) })) } := by
  induction msgs generalizing st with
  | nil =>
    simp only [go_threads, List.filter_nil, List.append_nil]
    have hmap : st.associations.map
        (fun e => (e.1, { e.2 with threads := e.2.threads })) = st.associations := by
      induction st.associations with
      | nil => rfl
      | cons e es ihl =>
        rw [List.map_cons, ihl]
    rw [hmap]
  | cons m ms ih =>
    cases ht : thread_target tm m with
    | none =>
      simp only [go_threads, ht]
      rw [ih]
      congr 1
      refine List.map_congr_left (fun e _ => ?_)
      rw [List.filter_cons]
      have hd : decide (thread_target tm m = some e.1) = false := by
        simp [ht]
      rw [hd]
      simp
    | some url =>
      simp only [go_threads, ht]
      rw [ih]
      simp only [append_threads]
      rw [List.map_map]
      congr 1
      refine List.map_congr_left (fun e _ => ?_)
      simp only [Function.comp]
      by_cases he : url = e.1
      · subst he
        simp [List.filter_cons, ht, List.append_assoc]
      · have h1 : ¬ (e.1 = url) := fun h => he h.symm
        simp [h1, List.filter_cons, ht, he]

/-- `associate_threads` in characterized form. -/
theorem associate_threads_char (st : ExtractorState) (msgs : List Msg) :
    associate_threads st msgs = { st with associations := st.associations.map (fun e =>
      (e.1, { e.2 with threads := (e.2.threads ++ msgs.filter (fun m =>
        decide (thread_target (thread_map_of st.associations) m = some e.1))) })) } :=
  go_threads_char (thread_map_of st.associations) msgs st

/-- The thread map only depends on the keys and anchors, which every
stage preserves. -/
theorem thread_map_of_map (l : List (String × Bundle)) (f : String × Bundle → Bundle)
    (hf : ∀ e ∈ l, (f e).anchor = e.2.anchor) :
    thread_map_of (l.map (fun e => (e.1, f e))) = thread_map_of l := by
  unfold thread_map_of
  rw [List.foldl_map]
  refine foldl_congr_mem l _ _ (fun d e he => ?_) []
  rw [hf e he]

/-- Looking up the thread map identifies an association entry whose
anchor has that message id. -/
theorem thread_map_of_lookup (l : List (String × Bundle)) (k : Option String) (u : String)
    (h : dlookup (thread_map_of l) k = some u) :
    ∃ e ∈ l, e.1 = u ∧ e.2.anchor.message_id = k := by
  unfold thread_map_of at h
  rcases dlookup_foldl_dset (fun e : String × Bundle => e.2.anchor.message_id)
      (fun e => e.1) l [] k u h with ⟨e, he, hk, hv⟩ | hbase
  · exact ⟨e, he, hv, hk⟩
  · simp [dlookup] at hbase

/-- Extraction yields a state with no-duplicate keys and all-empty
association lists. -/
theorem extract_candidates_clean (msgs : List Msg) (ch : String) (st : ExtractorState)
    (h : ((st.associations.map Prod.fst).Nodup ∧
      ∀ e ∈ st.associations, e.2.threads = [] ∧ e.2.direct = [] ∧ e.2.fuzzy = [])) :
    (((extract_candidates st msgs ch).associations.map Prod.fst).Nodup ∧
      ∀ e ∈ (extract_candidates st msgs ch).associations,
        e.2.threads = [] ∧ e.2.direct = [] ∧ e.2.fuzzy = []) := by
  unfold extract_candidates
  refine foldl_preserves (fun s : ExtractorState => ((s.associations.map Prod.fst).Nodup ∧
    ∀ e ∈ s.associations, e.2.threads = [] ∧ e.2.direct = [] ∧ e.2.fuzzy = []))
    _ ?_ msgs st h
  intro s msg hs
  refine foldl_preserves (fun s : ExtractorState => ((s.associations.map Prod.fst).Nodup ∧
    ∀ e ∈ s.associations, e.2.threads = [] ∧ e.2.direct = [] ∧ e.2.fuzzy = []))
    _ ?_ _ s hs
  intro s' mtch hs'
  refine ⟨dset_keys_nodup _ _ _ hs'.1, ?_⟩
  intro e he
  rcases mem_dset _ _ _ e he with h' | h'
  · exact hs'.2 e h'
  · rw [h']
    exact ⟨rfl, rfl, rfl⟩

/-- The candidate loop of the direct stage, characterized: each entry
found in the (no-duplicate-keys) snapshot gets the message appended to
`direct` exactly when `direct_cond` holds for it. -/
theorem go_direct_inner_char (m : Msg) (l : List (String × Cand)) (st : ExtractorState)
    (hnd : (l.map Prod.fst).Nodup) :
    go_direct_inner m l st = { st with associations := st.associations.map (fun e =>
      (e.1, match l.find? (fun p => decide (p.1 = e.1)) with
        | some p => if direct_cond m p.1 p.2 then { e.2 with direct := e.2.direct ++ [m] }
                    else e.2
        | none => e.2)) } := by
  induction l generalizing st with
  | nil =>
    simp only [go_direct_inner, List.find?_nil]
    have hmap : st.associations.map (fun e => (e.1, e.2)) = st.associations := by
      induction st.associations with
      | nil => rfl
      | cons e es ihl =>
        rw [List.map_cons, ihl]
    rw [hmap]
  | cons hd tl ih =>
    obtain ⟨url, cand⟩ := hd
    simp only [List.map_cons, List.nodup_cons] at hnd
    have hnotl : url ∉ tl.map Prod.fst := hnd.1
    have hfindnone : ∀ k : String, k = url →
        tl.find? (fun p => decide (p.1 = k)) = none := by
      intro k hk
      subst hk
      refine List.find?_eq_none.mpr (fun p hp => ?_)
      simp only [decide_eq_true_eq]
      intro hpk
      exact hnotl (hpk ▸ List.mem_map_of_mem Prod.fst hp)
    by_cases hdc : direct_cond m url cand
    · simp only [go_direct_inner, hdc, if_true]
      rw [ih _ hnd.2]
      simp only [append_direct]
      rw [List.map_map]
      congr 1
      refine List.map_congr_left (fun e _ => ?_)
      simp only [Function.comp]
      by_cases he : url = e.1
      · subst he
        rw [List.find?_cons_of_pos _ (by simp)]
        simp [hfindnone e.1 rfl, hdc]
      · have h1 : ¬ (e.1 = url) := fun h => he h.symm
        rw [List.find?_cons_of_neg _ (by simp [he])]
        simp [h1]
    · simp only [go_direct_inner, hdc, if_false]
      rw [ih _ hnd.2]
      congr 1
      refine List.map_congr_left (fun e _ => ?_)
      by_cases he : url = e.1
      · subst he
        rw [List.find?_cons_of_pos _ (by simp)]
        simp [hfindnone e.1 rfl, hdc]
      · rw [List.find?_cons_of_neg _ (by simp [he])]

/-- The message loop of the direct stage, characterized: each entry
gets the sub-sequence of messages passing `direct_cond` (against the
snapshot's candidate for its key) appended to `direct`. -/
theorem go_direct_char (cmap : List (String × Cand)) (msgs : List Msg) (st : ExtractorState)
    (hnd : (cmap.map Prod.fst).Nodup) :
    go_direct cmap msgs st = { st with associations := st.associations.map (fun e =>
      (e.1, match cmap.find? (fun p => decide (p.1 = e.1)) with
        | some p => { e.2 with direct := (e.2.direct
            ++ msgs.filter (fun m => direct_cond m p.1 p.2)) }
        | none => e.2)) } := by
  induction msgs generalizing st with
  | nil =>
    simp only [go_direct, List.filter_nil, List.append_nil]
    have hmap : st.associations.map (fun e =>
        (e.1, match cmap.find? (fun p => decide (p.1 = e.1)) with
          | some _ => { e.2 with direct := e.2.direct }
          | none => e.2)) = st.associations := by
      induction st.associations with
      | nil => rfl
      | cons e es ihl =>
        rw [List.map_cons, ihl]
        cases cmap.find? (fun p => decide (p.1 = e.1)) <;> rfl
    rw [hmap]
  | cons m ms ih =>
    simp only [go_direct]
    rw [go_direct_inner_char m cmap st hnd, ih]
    rw [List.map_map]
    congr 1
    refine List.map_congr_left (fun e _ => ?_)
    simp only [Function.comp]
    cases hf : cmap.find? (fun p => decide (p.1 = e.1)) with
    | none => rfl
    | some p =>
      by_cases hdc : direct_cond m p.1 p.2
      · simp [hdc, List.filter_cons, List.append_assoc]
      · simp [hdc, List.filter_cons]

theorem keys_map_keyfix {κ ν ν' : Type} (l : List (κ × ν)) (g : κ × ν → ν') :
    (l.map (fun e => (e.1, g e))).map Prod.fst = l.map Prod.fst := by
  rw [List.map_map]
  exact List.map_congr_left (fun e _ => rfl)

/-! ### The exclusivity invariant through the stages -/

/-- After extraction, thread association and direct-mention
association, the state satisfies the exclusivity invariant. -/
theorem pipeline_state_ok (msgs : List Msg) (ch : String) :
    state_ok (associate_direct_mentions (associate_threads
      (extract_candidates initState msgs ch) msgs) msgs) := by
  obtain ⟨hnd0, hemp0⟩ := extract_candidates_clean msgs ch initState
    ⟨by simp [initState], by intro e he; simp [initState] at he⟩
  set st0 := extract_candidates initState msgs ch with hst0
  have hassoc1 : (associate_threads st0 msgs).associations
      = st0.associations.map (fun e =>
        (e.1, { e.2 with threads := (e.2.threads ++ msgs.filter (fun m =>
          decide (thread_target (thread_map_of st0.associations) m = some e.1))) })) := by
    rw [associate_threads_char st0 msgs]
  set st1 := associate_threads st0 msgs with hst1
  have hnd1 : (st1.associations.map Prod.fst).Nodup := by
    rw [hassoc1, keys_map_keyfix]
    exact hnd0
  have hndc : ((candidate_map_of st1).map Prod.fst).Nodup := by
    unfold candidate_map_of
    rw [keys_map_keyfix]
    exact hnd1
  have hassoc2 : (associate_direct_mentions st1 msgs).associations
      = st1.associations.map (fun e =>
        (e.1, match (candidate_map_of st1).find? (fun p => decide (p.1 = e.1)) with
          | some p => { e.2 with direct := (e.2.direct
              ++ msgs.filter (fun m => direct_cond m p.1 p.2)) }
          | none => e.2)) := by
    rw [show associate_direct_mentions st1 msgs = go_direct (candidate_map_of st1) msgs st1
      from rfl]
    rw [go_direct_char (candidate_map_of st1) msgs st1 hndc]
  constructor
  · rw [hassoc2, keys_map_keyfix]
    exact hnd1
  · intro e2 he2
    rw [hassoc2] at he2
    rcases List.mem_map.mp he2 with ⟨e1, he1, he2eq⟩
    have hfind : (candidate_map_of st1).find? (fun p => decide (p.1 = e1.1))
        = some (e1.1, e1.2.anchor) :=
      find?_eq_of_mem_keys_nodup _ _ _ hndc
        (List.mem_map_of_mem (fun e => (e.1, e.2.anchor)) he1)
    rw [hfind] at he2eq
    have he1' := he1
    rw [hassoc1] at he1'
    rcases List.mem_map.mp he1' with ⟨e0, he0, he1eq⟩
    obtain ⟨hthr0, hdir0, hfuz0⟩ := hemp0 e0 he0
    subst he2eq
    subst he1eq
    refine ⟨?_, ?_, ?_⟩
    · intro m hm
      simp only [hthr0, List.nil_append] at hm
      have hpred := (List.mem_filter.mp hm).2
      have htt : thread_target (thread_map_of st0.associations) m = some e0.1 :=
        of_decide_eq_true hpred
      unfold thread_target at htt
      by_cases hcond : (truthy m.thread_ts && !(decide (m.ts = m.thread_ts))) = true
      · rw [if_pos hcond] at htt
        rcases thread_map_of_lookup st0.associations m.thread_ts e0.1 htt with
          ⟨a, ha, hau, haid⟩
        have : a = e0 := nodup_keys_inj st0.associations hnd0 ha he0 hau
        subst this
        exact ⟨(Bool.and_eq_true _ _ |>.mp hcond).1, haid.symm⟩
      · rw [if_neg hcond] at htt
        exact absurd htt (by simp)
    · intro m hm
      simp only [hdir0, List.nil_append] at hm
      have hpred := (List.mem_filter.mp hm).2
      unfold direct_cond at hpred
      have h3 := (Bool.and_eq_true _ _ |>.mp hpred).2
      intro hcontra
      rcases Bool.or_eq_true _ _ |>.mp h3 with h | h
      · rw [hcontra.1] at h
        simp at h
      · rw [Bool.not_eq_true', decide_eq_false_iff_not] at h
        exact h hcontra.2
    · intro m hm
      simp only [hfuz0] at hm
      simp at hm

/-- Appending a fuzzy match whose skip test failed preserves the
invariant. -/
theorem append_fuzzy_state_ok (st : ExtractorState) (url : String) (cand : Cand) (m : Msg)
    (hok : state_ok st) (hskip : fuzzy_skip st url cand m = false) :
    state_ok (append_fuzzy st url m) := by
  obtain ⟨hnd, hent⟩ := hok
  have hfalse : (decide (m ∈ ((dlookup st.associations url).getD (freshBundle cand)).threads)
        || decide (m ∈ ((dlookup st.associations url).getD (freshBundle cand)).direct)
        || decide (m.id = cand.message_id)) = false := hskip
  simp only [Bool.or_eq_false_iff, decide_eq_false_iff_not] at hfalse
  constructor
  · simp only [append_fuzzy]
    have : (st.associations.map (fun e =>
        if e.1 = url then (e.1, { e.2 with fuzzy := e.2.fuzzy ++ [m] }) else e)).map Prod.fst
        = st.associations.map Prod.fst := by
      rw [List.map_map]
      refine List.map_congr_left (fun e _ => ?_)
      by_cases he : e.1 = url <;> simp [he]
    rw [this]
    exact hnd
  · intro e' he'
    simp only [append_fuzzy] at he'
    rcases List.mem_map.mp he' with ⟨e, he, heq⟩
    by_cases hkey : e.1 = url
    · rw [if_pos hkey] at heq
      have hb : dlookup st.associations url = some e.2 := by
        apply dlookup_of_mem_nodup _ _ _ hnd
        rw [← hkey]
        exact (by rw [show ((e.1, e.2) : String × Bundle) = e from rfl]; exact he)
      obtain ⟨hT, hD, hF⟩ := hent e he
      subst heq
      refine ⟨hT, hD, ?_⟩
      intro m' hm'
      rcases List.mem_append.mp hm' with h | h
      · exact hF m' h
      · simp only [List.mem_singleton] at h
        subst h
        rw [hb] at hfalse
        exact ⟨hfalse.1.1, hfalse.1.2⟩
    · rw [if_neg hkey] at heq
      subst heq
      exact hent e he

/-- The candidate loop of the fuzzy stage preserves the invariant
(whether or not it escapes with an exception). -/
theorem go_fuzzy_inner_ok (search : String → Except String (List String)) (m : Msg) :
    ∀ (l : List (String × Cand)) (st : ExtractorState), state_ok st →
      state_ok (go_fuzzy_inner search m l st).1 := by
  intro l
  induction l with
  | nil => intro st h; exact h
  | cons hd tl ih =>
    intro st h
    obtain ⟨url, cand⟩ := hd
    cases hskip : fuzzy_skip st url cand m with
    | true =>
      simp only [go_fuzzy_inner, hskip, if_true]
      exact ih st h
    | false =>
      simp only [go_fuzzy_inner, hskip, Bool.false_eq_true, if_false]
      cases hs : search m.text with
      | error e => exact h
      | ok docs =>
        cases hname : pyIn cand.name (String.join docs) with
        | true =>
          simp only [hname, if_true]
          exact ih _ (append_fuzzy_state_ok st url cand m h hskip)
        | false =>
          simp only [hname, Bool.false_eq_true, if_false]
          exact ih st h

/-- The message loop of the fuzzy stage preserves the invariant. -/
theorem go_fuzzy_ok (search : String → Except String (List String))
    (cmap : List (String × Cand)) :
    ∀ (msgs : List Msg) (st : ExtractorState), state_ok st →
      state_ok (go_fuzzy search cmap msgs st).1 := by
  intro msgs
  induction msgs with
  | nil => intro st h; exact h
  | cons m ms ih =>
    intro st h
    have hinner := go_fuzzy_inner_ok search m cmap st h
    simp only [go_fuzzy]
    cases hi : go_fuzzy_inner search m cmap st with
    | mk st' err =>
      rw [hi] at hinner
      cases err with
      | none => exact ih st' hinner
      | some e => exact hinner

/-- Claim C2, counterexample: `associate_threads` is not idempotent.  On
the corpus `[msg_anchor, msg_reply]`, after one call the candidate's
`threads` list is `[msg_reply]`, but a second call with the same
message list appends the reply again, yielding `[msg_reply, msg_reply]`
— the bundles after the second call are not identical to those after
the first. -/
theorem c2_associate_threads_not_idempotent_cex :
    (dlookup (associate_threads
        (associate_threads (extract_candidates initState [msg_anchor, msg_reply] "acme")
          [msg_anchor, msg_reply])
        [msg_anchor, msg_reply]).associations url_jane).map Bundle.threads
      = some [msg_reply, msg_reply]
    ∧ (dlookup (associate_threads (extract_candidates initState [msg_anchor, msg_reply] "acme")
        [msg_anchor, msg_reply]).associations url_jane).map Bundle.threads
      = some [msg_reply]
    ∧ ([msg_reply, msg_reply] : List Msg) ≠ [msg_reply] := by
  refine ⟨by decide, by decide, by decide⟩

/-- Claim C3, counterexample: a judge error crashes the fuzzy batch.  On
`[msg_anchor, msg_reply, msg_ping, msg_update]` with a judge that
raises for `msg_ping`'s text, the full pipeline ends with the escaped
exception `"judge down"`, and the candidate's `fuzzy` list stays empty:
the later pair (`msg_update`, Jane) — which the same judge would have
associated — was never examined.  The batch does crash. -/
theorem c3_judge_error_crashes_batch_cex :
    (run_pipeline [msg_anchor, msg_reply, msg_ping, msg_update] "acme" search_boom).2
      = some "judge down"
    ∧ ((run_pipeline [msg_anchor, msg_reply, msg_ping, msg_update] "acme" search_boom).1.associations.map
        (fun e => e.2.fuzzy)) = [[]]
    ∧ ((run_pipeline [msg_anchor, msg_reply, msg_ping, msg_update] "acme" search_ok).1.associations.map
        (fun e => e.2.fuzzy)) = [[msg_ping, msg_update]] := by
  refine ⟨by decide, by decide, by decide⟩

/-- Claim C4, counterexample: when the optimizer errors, the search is
performed with the string `"[ERROR] Claude API error: boom"` — not with
the caller's original query `"q"`.  (The collection query is
instantiated with a function returning the text it was asked to
search.) -/
theorem c4_optimizer_error_query_replaced_cex :
    semantic_search (fun _ => .error "boom") (fun q _ _ => [q]) "q" 10 none none none
      = ["[ERROR] Claude API error: boom"]
    ∧ ("[ERROR] Claude API error: boom" : String) ≠ "q" := by
  exact ⟨rfl, by decide⟩

/-- Claim C4 (amended): on optimizer error the search still runs — the
exception is swallowed inside `optimize_query_with_claude` — but the
text searched is the error string `"[ERROR] Claude API error: {e}"`,
not the original query. -/
theorem c4_optimizer_error_searches_error_string
    (claude_call : String → Except String String)
    (collection_query : String → Nat → WhereFilter → List String)
    (query : String) (e : String) (n_results : Nat) (channel start_date end_date : Option String)
    (herr : claude_call ("Optimize the following query for better search results: " ++ query)
      = .error e) :
    semantic_search claude_call collection_query query n_results channel start_date end_date
      = collection_query ("[ERROR] Claude API error: " ++ e) n_results
          ⟨channel, start_date, end_date⟩ := by
  unfold semantic_search optimize_query_with_claude
  rw [herr]

/-- Witness for `c4_optimizer_error_searches_error_string` at a concrete
always-failing optimizer and an echoing collection. -/
theorem c4_optimizer_error_searches_error_string_witness :
    semantic_search (fun _ => .error "boom") (fun q _ _ => [q]) "q" 10 none none none
      = (fun (q : String) (_ : Nat) (_ : WhereFilter) => [q])
          ("[ERROR] Claude API error: " ++ "boom") 10 ⟨none, none, none⟩ :=
  c4_optimizer_error_searches_error_string (fun _ => .error "boom") (fun q _ _ => [q])
    "q" "boom" 10 none none none rfl

/-- Claim C5, counterexample: `CandidateExtractor.extract_candidates`
does not recognize a bare profile URL.  A message whose text is the
bare URL `https://www.linkedin.com/in/jdoe2` yields no candidate at all
(while the digest generator's `enrich_message` pattern does recognize
it, with the slug as default name). -/
theorem c5_bare_url_not_extracted_cex :
    (extract_candidates initState [msg_bare] "acme").candidates = []
    ∧ linkedin_profiles_of msg_bare.text
        = [⟨"jdoe2", "https://linkedin.com/in/jdoe2"⟩] := by
  refine ⟨by decide, by decide⟩

/-- Claim C6 (code bug): the fallback for a candidate anchor with no
thread replies exists only in the *first*, shadowed definition of
`build_claude_context_by_candidate`.  On a corpus with one anchor
message and no replies, the first definition's output contains both the
literal line `no feedback from client` and the follow-up instruction
line, while the output of the second — shadowing, hence effective —
definition contains neither. -/
theorem c6_fallback_only_in_shadowed_def :
    pyIn "no feedback from client"
      (build_claude_context_by_candidate_first (fun u => u) (fun _ => "acme") [msg_anchor]) = true
    ∧ pyIn "status: Follow up with client to see if they're interested."
      (build_claude_context_by_candidate_first (fun u => u) (fun _ => "acme") [msg_anchor]) = true
    ∧ pyIn "no feedback from client"
      (build_claude_context_by_candidate_second (fun u => u) (fun _ => "acme") [msg_anchor]) = false := by
  refine ⟨by decide, by decide, by decide⟩

/-- Claim C7, counterexample: a thread whose replies are in the fetched
set but whose root is not is silently dropped.  With the single fetched
message `msg_orphan` (a reply to the out-of-range root ts 100), the
thread-blocks list is empty and the rendered context is just the bare
section header — no `Parent message:` line, no trace of the reply. -/
theorem c7_missing_root_thread_dropped_cex :
    thread_blocks [msg_orphan] = []
    ∧ build_claude_context_with_all_thread_replies (fun u => u) (fun _ => "acme") (fun s => s)
        [] [msg_orphan] = "\n=== Thread Replies ===" := by
  refine ⟨by decide, rfl⟩

/-- Claim C8, counterexample: a rendered context block whose replies
are in strictly decreasing timestamp order.  On the store-ordered
corpus `[msg_anchor (the LinkedIn anchor, ts 1), msg_late (reply,
ts 10.25), msg_early (reply, ts 2.5)]`, the effective
`build_claude_context_by_candidate` renders Jane's block with the reply
line for ts 10.25 immediately before the reply line for ts 2.5 (and the
ascending adjacency appears nowhere in the output): the builder kept
the data-store order `[msg_late, msg_early]`, a descending pair. -/
theorem c8_by_candidate_replies_unsorted_cex :
    by_candidate_replies [msg_anchor, msg_late, msg_early] msg_anchor
      = [msg_late, msg_early]
    ∧ ¬ ts_le msg_late msg_early
    ∧ pyIn ("- a: late reply [10.25]" ++ "\n" ++ "- b: early reply [2.5]")
        (build_claude_context_by_candidate_second (fun u => u) (fun _ => "acme")
          [msg_anchor, msg_late, msg_early]) = true
    ∧ pyIn ("- b: early reply [2.5]" ++ "\n" ++ "- a: late reply [10.25]")
        (build_claude_context_by_candidate_second (fun u => u) (fun _ => "acme")
          [msg_anchor, msg_late, msg_early]) = false
    ∧ build_claude_context_by_candidate_second (fun u => u) (fun _ => "acme")
        [msg_anchor, msg_late, msg_early] ≠ "" := by
  refine ⟨by decide, by decide, by decide, by decide, by decide⟩

/-- Claim C9 (code bug): with no explicit start date `get_date_range`
never returns a window at all.  `datetime.now(self.timezone)` is
timezone-aware, and `pytz`'s `localize` raises `ValueError` on an aware
value, so the default branch raises instead of resolving the
previous-week window.  The intended start value — the one handed to
`localize` — is indeed a Monday of the previous calendar week at
00:00:00, but with the current time's microseconds surviving
(`replace` is not told to clear them). -/
theorem c9_default_range_raises (now : PyDateTime) (end_date_str : Option Int)
    (haware : now.tz_aware = true) :
    get_date_range none end_date_str now
      = Except.error "ValueError: Not naive datetime (tzinfo is already set)"
    ∧ weekday (replace_hms (sub_days now (weekday now + 7)) 0 0 0) = 0
    ∧ now.day - 13 ≤ (replace_hms (sub_days now (weekday now + 7)) 0 0 0).day
    ∧ (replace_hms (sub_days now (weekday now + 7)) 0 0 0).day ≤ now.day - 7
    ∧ (replace_hms (sub_days now (weekday now + 7)) 0 0 0).hour = 0
    ∧ (replace_hms (sub_days now (weekday now + 7)) 0 0 0).minute = 0
    ∧ (replace_hms (sub_days now (weekday now + 7)) 0 0 0).second = 0
    ∧ (replace_hms (sub_days now (weekday now + 7)) 0 0 0).microsecond = now.microsecond := by
  have hw0 : 0 ≤ now.day % 7 := Int.emod_nonneg now.day (by decide)
  have hw6 : now.day % 7 < 7 := Int.emod_lt_of_pos now.day (by decide)
  refine ⟨?_, ?_, ?_, ?_, rfl, rfl, rfl, rfl⟩
  · have h1 : localize (replace_hms (sub_days now (weekday now + 7)) 0 0 0)
        = Except.error "ValueError: Not naive datetime (tzinfo is already set)" := by
      simp [localize, replace_hms, sub_days, haware]
    unfold get_date_range
    rw [h1]
    rfl
  · simp only [weekday, replace_hms, sub_days]
    omega
  · simp only [weekday, replace_hms, sub_days]
    omega
  · simp only [weekday, replace_hms, sub_days]
    omega

/-- Claim C1: after the three association stages run in their fixed
order (threads, then direct mentions, then fuzzy) over one channel's
message corpus, every message appears in at most one of any candidate's
three lists `threads`/`direct`/`fuzzy`.  This holds for every corpus,
channel and injected similarity judge, whether or not the fuzzy stage
escaped with a judge exception. -/
theorem c1_message_in_at_most_one_bucket (messages : List Msg) (channel_name : String)
    (search : String → Except String (List String)) :
    ∀ e ∈ (run_pipeline messages channel_name search).1.associations, ∀ m : Msg,
      ¬(m ∈ e.2.threads ∧ m ∈ e.2.direct)
      ∧ ¬(m ∈ e.2.threads ∧ m ∈ e.2.fuzzy)
      ∧ ¬(m ∈ e.2.direct ∧ m ∈ e.2.fuzzy) := by
  intro e he m
  have hok : state_ok (run_pipeline messages channel_name search).1 := by
    have := go_fuzzy_ok search
      (candidate_map_of (associate_direct_mentions (associate_threads
        (extract_candidates initState messages channel_name) messages) messages))
      messages
      (associate_direct_mentions (associate_threads
        (extract_candidates initState messages channel_name) messages) messages)
      (pipeline_state_ok messages channel_name)
    exact this
  obtain ⟨hT, hD, hF⟩ := hok.2 e he
  refine ⟨?_, ?_, ?_⟩
  · intro h
    exact (hD m h.2) ⟨(hT m h.1).1, (hT m h.1).2⟩
  · intro h
    exact (hF m h.2).1 h.1
  · intro h
    exact (hF m h.2).2 h.1

/-- Witness for `c1_message_in_at_most_one_bucket`: the concrete
pipeline over `[msg_anchor, msg_reply]` with the always-matching judge,
at Jane's bundle and the reply message. -/
theorem c1_message_in_at_most_one_bucket_witness :
    ¬(msg_reply ∈ (url_jane, bundle_jane_final).2.threads
        ∧ msg_reply ∈ (url_jane, bundle_jane_final).2.direct)
    ∧ ¬(msg_reply ∈ (url_jane, bundle_jane_final).2.threads
        ∧ msg_reply ∈ (url_jane, bundle_jane_final).2.fuzzy)
    ∧ ¬(msg_reply ∈ (url_jane, bundle_jane_final).2.direct
        ∧ msg_reply ∈ (url_jane, bundle_jane_final).2.fuzzy) :=
  c1_message_in_at_most_one_bucket [msg_anchor, msg_reply] "acme" search_ok
    (url_jane, bundle_jane_final) (by decide) msg_reply

/-- Claim C2 (amended): `associate_threads` is not idempotent — it
appends.  Starting from a freshly extracted state, a second call with
the same message list appends the same matching replies once more, so
each candidate's `threads` list is the matching sub-sequence twice
over, not the first call's list. -/
theorem c2_associate_threads_appends_again (msgs : List Msg) (ch : String) :
    (associate_threads (associate_threads (extract_candidates initState msgs ch) msgs)
        msgs).associations
      = (extract_candidates initState msgs ch).associations.map (fun e =>
          (e.1, { e.2 with threads := (e.2.threads
            ++ msgs.filter (fun m => decide (thread_target
                (thread_map_of (extract_candidates initState msgs ch).associations) m
                  = some e.1))
            ++ msgs.filter (fun m => decide (thread_target
                (thread_map_of (extract_candidates initState msgs ch).associations) m
                  = some e.1))) })) := by
  set st0 := extract_candidates initState msgs ch with hst0
  have hassoc1 : (associate_threads st0 msgs).associations
      = st0.associations.map (fun e =>
        (e.1, { e.2 with threads := (e.2.threads ++ msgs.filter (fun m =>
          decide (thread_target (thread_map_of st0.associations) m = some e.1))) })) := by
    rw [associate_threads_char st0 msgs]
  have htm : thread_map_of (associate_threads st0 msgs).associations
      = thread_map_of st0.associations := by
    rw [hassoc1]
    exact thread_map_of_map _ _ (fun e _ => rfl)
  have h2 : (associate_threads (associate_threads st0 msgs) msgs).associations
      = (associate_threads st0 msgs).associations.map (fun e =>
        (e.1, { e.2 with threads := (e.2.threads ++ msgs.filter (fun m =>
          decide (thread_target (thread_map_of (associate_threads st0 msgs).associations) m
            = some e.1))) })) := by
    rw [associate_threads_char (associate_threads st0 msgs) msgs]
  rw [h2, htm, hassoc1, List.map_map]
  refine List.map_congr_left (fun e _ => ?_)
  simp [List.append_assoc]

/-- Claim C3 (amended): when the similarity judge raises for the first
examined (non-skipped) message/candidate pair, the exception propagates
out of `associate_fuzzy` at once: the pair is not added to
`fuzzy_matches`, but the remaining pairs are not processed either — the
state is returned as it was, together with the escaped exception. -/
theorem c3_judge_error_propagates (st : ExtractorState)
    (search : String → Except String (List String)) (m : Msg) (ms : List Msg)
    (u : String) (cand : Cand) (rest : List (String × Cand)) (e : String)
    (hmap : candidate_map_of st = (u, cand) :: rest)
    (hskip : fuzzy_skip st u cand m = false)
    (herr : search m.text = .error e) :
    associate_fuzzy st (m :: ms) search = (st, some e) := by
  unfold associate_fuzzy
  rw [hmap]
  simp [go_fuzzy, go_fuzzy_inner, hskip, herr]

/-- Witness for `c3_judge_error_propagates`: the freshly extracted
state for `msg_anchor`, the erroring judge and `msg_ping`. -/
theorem c3_judge_error_propagates_witness :
    associate_fuzzy (extract_candidates initState [msg_anchor] "acme") [msg_ping] search_boom
      = (extract_candidates initState [msg_anchor] "acme", some "judge down") :=
  c3_judge_error_propagates (extract_candidates initState [msg_anchor] "acme") search_boom
    msg_ping [] url_jane cand_jane [] "judge down" (by decide) (by decide) rfl

/-- Claim C10: when messages carry no separate `id` key (so
`message_id` is the ts) and a candidate's anchor message has no
`thread_ts`, `associate_direct_mentions` appends the candidate's own
anchor message to that candidate's `direct` list: the anchor-skip check
compares the absent `id` (`None`) with the ts-derived `message_id` and
never fires. -/
theorem c10_anchor_self_in_direct_mentions (st : ExtractorState) (msgs : List Msg)
    (a : Msg) (u : String) (b : Bundle)
    (hnd : (st.associations.map Prod.fst).Nodup)
    (hb : dlookup st.associations u = some b)
    (hid : a.id = none) (hts : a.ts ≠ none)
    (hmid : b.anchor.message_id = a.ts)
    (hth : a.thread_ts = none)
    (hurl : pyIn u a.text = true)
    (hmem : a ∈ msgs) :
    ∃ b', dlookup (associate_direct_mentions st msgs).associations u = some b'
      ∧ a ∈ b'.direct := by
  have hndc : ((candidate_map_of st).map Prod.fst).Nodup := by
    unfold candidate_map_of
    rw [keys_map_keyfix]
    exact hnd
  have hmemb : (u, b) ∈ st.associations := dlookup_some_mem _ _ _ hb
  have hfind : (candidate_map_of st).find? (fun p => decide (p.1 = u))
      = some (u, b.anchor) :=
    find?_eq_of_mem_keys_nodup _ _ _ hndc
      (List.mem_map_of_mem (fun e => (e.1, e.2.anchor)) hmemb)
  have hassoc2 : (associate_direct_mentions st msgs).associations
      = st.associations.map (fun e =>
        (e.1, match (candidate_map_of st).find? (fun p => decide (p.1 = e.1)) with
          | some p => { e.2 with direct := (e.2.direct
              ++ msgs.filter (fun m => direct_cond m p.1 p.2)) }
          | none => e.2)) := by
    rw [show associate_direct_mentions st msgs = go_direct (candidate_map_of st) msgs st
      from rfl]
    rw [go_direct_char (candidate_map_of st) msgs st hndc]
  refine ⟨{ b with direct := b.direct ++ msgs.filter (fun m => direct_cond m u b.anchor) },
    ?_, ?_⟩
  · rw [hassoc2, dlookup_map_val, find?_eq_of_mem_keys_nodup st.associations u b hnd hmemb]
    simp only [Option.map_some', hfind]
  · refine List.mem_append.mpr (Or.inr (List.mem_filter.mpr ⟨hmem, ?_⟩))
    have hmidne : ¬ (a.id = b.anchor.message_id) := by
      rw [hid, hmid]
      intro h
      exact hts h.symm
    unfold direct_cond mention_cond
    rw [hurl, hth]
    simp [hmidne, truthy]

/-- Witness for `c10_anchor_self_in_direct_mentions`: the freshly
extracted state for `msg_anchor` and the corpus `[msg_anchor]`. -/
theorem c10_anchor_self_in_direct_mentions_witness :
    ∃ b', dlookup (associate_direct_mentions
        (extract_candidates initState [msg_anchor] "acme") [msg_anchor]).associations url_jane
      = some b' ∧ msg_anchor ∈ b'.direct :=
  c10_anchor_self_in_direct_mentions (extract_candidates initState [msg_anchor] "acme")
    [msg_anchor] msg_anchor url_jane (freshBundle cand_jane) (by decide) (by decide)
    (by decide) (by decide) (by decide) (by decide) (by decide) (by decide)

/-! ### Scanner and context-builder lemmas -/

theorem linkMatch_eq_none_of_no_lt (cs : List Char) (h : '<' ∉ cs) : linkMatch cs = none := by
  cases cs with
  | nil => rfl
  | cons c r =>
    simp only [linkMatch]
    rw [if_neg (fun hc : c = '<' => h (by rw [← hc]; exact List.mem_cons_self c r))]

theorem linkFinditer_eq_nil_of_no_lt :
    ∀ (n : Nat) (cs : List Char), '<' ∉ cs → linkFinditer n cs = [] := by
  intro n
  induction n with
  | zero => intro cs _; rfl
  | succ n ih =>
    intro cs h
    cases cs with
    | nil => rfl
    | cons c rest =>
      simp only [linkFinditer, linkMatch_eq_none_of_no_lt _ h]
      exact ih rest (fun hm => h (List.mem_cons_of_mem c hm))

theorem extract_candidates_no_matches (msgs : List Msg) (ch : String) (st : ExtractorState)
    (h : ∀ m ∈ msgs, '<' ∉ m.text.data) : extract_candidates st msgs ch = st := by
  induction msgs generalizing st with
  | nil => rfl
  | cons m ms ih =>
    have hf : LINKEDIN_REGEX_findall m.text = [] := by
      unfold LINKEDIN_REGEX_findall
      rw [linkFinditer_eq_nil_of_no_lt _ _ (h m (List.mem_cons_self m ms))]
      rfl
    have step : extract_candidates st (m :: ms) ch = extract_candidates st ms ch := by
      simp only [extract_candidates, List.foldl_cons, hf, List.foldl_nil]
    rw [step]
    exact ih st (fun m' hm' => h m' (List.mem_cons_of_mem _ hm'))

theorem dappend_values {κ ν : Type} [DecidableEq κ] (d : List (κ × List ν)) (k : κ) (v : ν)
    (e : κ × List ν) (he : e ∈ dappend d k v) (x : ν) (hx : x ∈ e.2) :
    x = v ∨ ∃ e₀ ∈ d, x ∈ e₀.2 := by
  induction d with
  | nil =>
    simp only [dappend, List.mem_singleton] at he
    subst he
    simp only [List.mem_singleton] at hx
    exact Or.inl hx
  | cons e₀ es ih =>
    by_cases h0 : e₀.1 = k
    · simp only [dappend, if_pos h0, List.mem_cons] at he
      rcases he with heq | hmem
      · subst heq
        rcases List.mem_append.mp hx with h | h
        · exact Or.inr ⟨e₀, List.mem_cons_self e₀ es, h⟩
        · simp only [List.mem_singleton] at h
          exact Or.inl h
      · exact Or.inr ⟨e, List.mem_cons_of_mem _ hmem, hx⟩
    · simp only [dappend, if_neg h0, List.mem_cons] at he
      rcases he with heq | hmem
      · subst heq
        exact Or.inr ⟨e, List.mem_cons_self e es, hx⟩
      · rcases ih hmem with h | ⟨e', he', hx'⟩
        · exact Or.inl h
        · exact Or.inr ⟨e', List.mem_cons_of_mem _ he', hx'⟩

/-- Every message inside a thread group came from the grouped corpus. -/
theorem thread_groups_values (msgs : List Msg) :
    ∀ e ∈ thread_groups msgs, ∀ x ∈ e.2, x ∈ msgs := by
  have key : ∀ (l : List Msg) (acc : List (Option String × List Msg)),
      (∀ e ∈ acc, ∀ x ∈ e.2, x ∈ msgs) → (∀ m ∈ l, m ∈ msgs) →
      ∀ e ∈ l.foldl (fun d m => dappend d (m.thread_ts.orElse (fun _ => m.ts)) m) acc,
        ∀ x ∈ e.2, x ∈ msgs := by
    intro l
    induction l with
    | nil => intro acc hacc _ e he x hx; exact hacc e he x hx
    | cons m ms ih =>
      intro acc hacc hl e he x hx
      refine ih _ ?_ (fun m' hm' => hl m' (List.mem_cons_of_mem _ hm')) e he x hx
      intro e' he' x' hx'
      rcases dappend_values acc _ m e' he' x' hx' with h | ⟨e₀, he₀, hx₀⟩
      · exact h ▸ hl m (List.mem_cons_self m ms)
      · exact hacc e₀ he₀ x' hx₀
  intro e he
  exact key msgs [] (by intro e' he'; simp at he') (fun m hm => hm) e he

/-- Claim C5 (amended): the two recognition forms live in two different
components.  `CandidateExtractor.extract_candidates` recognizes only
the bracketed pipe-delimited `<url>|<name>` form — text without `<`
yields no candidates at all — while the digest generator's
`enrich_message` pattern recognizes bare profile URLs, one profile per
match, defaulting the display name to the URL's trailing path segment
when no pipe-delimited label is present. -/
theorem c5_split_recognition :
    (∀ (msgs : List Msg) (ch : String), (∀ m ∈ msgs, '<' ∉ m.text.data) →
      (extract_candidates initState msgs ch).candidates = [])
    ∧ (∀ (text : String) (p : List Char × Option (List Char)),
        p ∈ linkedin_pattern_findall text → p.2 = none →
        Profile.mk ⟨p.1⟩ ("https://linkedin.com/in/" ++ ⟨p.1⟩) ∈ linkedin_profiles_of text)
    ∧ (extract_candidates initState [msg_anchor] "acme").candidates = [cand_jane]
    ∧ linkedin_profiles_of msg_bare.text = [⟨"jdoe2", "https://linkedin.com/in/jdoe2"⟩] := by
  refine ⟨?_, ?_, by decide, by decide⟩
  · intro msgs ch h
    rw [extract_candidates_no_matches msgs ch initState h]
    rfl
  · intro text p hp h2
    unfold linkedin_profiles_of
    refine List.mem_map.mpr ⟨p, hp, ?_⟩
    rw [h2]

/-- Witness for `c5_split_recognition`: a bracket-free message yields
no candidates, and the bare-URL profile of `msg_bare` is produced with
the slug as its name. -/
theorem c5_split_recognition_witness :
    (extract_candidates initState [msg_reply] "acme").candidates = []
    ∧ Profile.mk "jdoe2" ("https://linkedin.com/in/" ++ "jdoe2")
        ∈ linkedin_profiles_of msg_bare.text :=
  ⟨c5_split_recognition.1 [msg_reply] "acme" (by decide),
   c5_split_recognition.2.1 msg_bare.text ("jdoe2".data, none) (by decide) rfl⟩

/-- Claim C7 (amended): `build_claude_context_with_all_thread_replies`
renders only threads whose root is itself present in the fetched
message set — every rendered thread block's parent is drawn from that
set and carries the block's root timestamp — and a thread key with no
matching root message in the set yields no block at all: such threads
are silently dropped (the `get_recent_thread_replies_with_parent`
parent-lookup fallback is not used by this builder). -/
theorem c7_rendered_threads_have_root_in_set :
    (∀ (msgs : List Msg), ∀ b ∈ thread_blocks msgs,
      b.parent ∈ msgs ∧ b.parent.ts = b.root_ts)
    ∧ (∀ (msgs : List Msg) (t : Option String), (∀ m ∈ msgs, m.ts ≠ t) →
        ∀ b ∈ thread_blocks msgs, b.root_ts ≠ t) := by
  have hmain : ∀ (msgs : List Msg), ∀ b ∈ thread_blocks msgs,
      b.parent ∈ msgs ∧ b.parent.ts = b.root_ts := by
    intro msgs b hb
    unfold thread_blocks at hb
    rcases List.mem_filterMap.mp hb with ⟨e, he, hfe⟩
    cases hfind : (sort_by_ts e.2).find? (fun m => decide (m.ts = e.1)) with
    | none =>
      rw [hfind] at hfe
      simp at hfe
    | some parent =>
      rw [hfind] at hfe
      simp only [Option.some.injEq] at hfe
      subst hfe
      constructor
      · have hp : parent ∈ sort_by_ts e.2 := List.mem_of_find?_eq_some hfind
        have hp2 : parent ∈ e.2 := (List.perm_insertionSort ts_le e.2).mem_iff.mp hp
        exact thread_groups_values msgs e he parent hp2
      · show parent.ts = e.1
        have hpred := @List.find?_some Msg (fun m => decide (m.ts = e.1)) parent
          (sort_by_ts e.2) hfind
        exact of_decide_eq_true hpred
  refine ⟨hmain, ?_⟩
  intro msgs t ht b hb hroot
  obtain ⟨hmem, hts⟩ := hmain msgs b hb
  exact ht b.parent hmem (hroot ▸ hts)

/-- Witness for `c7_rendered_threads_have_root_in_set` on the concrete
corpus `[msg_parent, msg_late, msg_early]`. -/
theorem c7_rendered_threads_have_root_in_set_witness :
    ((ThreadBlock.mk (some "1") msg_parent [msg_early, msg_late]).parent
        ∈ [msg_parent, msg_late, msg_early]
      ∧ (ThreadBlock.mk (some "1") msg_parent [msg_early, msg_late]).parent.ts
        = (ThreadBlock.mk (some "1") msg_parent [msg_early, msg_late]).root_ts)
    ∧ (ThreadBlock.mk (some "1") msg_parent [msg_early, msg_late]).root_ts ≠ some "99" :=
  ⟨c7_rendered_threads_have_root_in_set.1 [msg_parent, msg_late, msg_early]
      ⟨some "1", msg_parent, [msg_early, msg_late]⟩ (by decide),
   c7_rendered_threads_have_root_in_set.2 [msg_parent, msg_late, msg_early] (some "99")
      (by decide) ⟨some "1", msg_parent, [msg_early, msg_late]⟩ (by decide)⟩

/-- Claim C8 (amended): chronological rendering holds for
`build_claude_context_with_all_thread_replies` — every rendered thread
block's replies are pairwise non-decreasing in timestamp, thanks to the
explicit sort — but the effective `build_claude_context_by_candidate`
never sorts: its reply list is the fetched corpus filtered in place (a
sublist of the data-store order), and its rendered block lists one
reply line per reply in exactly that list order, so ascending timestamp
order is not guaranteed there. -/
theorem c8_ordering_split :
    (∀ (msgs : List Msg), ∀ b ∈ thread_blocks msgs, b.replies.Pairwise ts_le)
    ∧ (∀ (msgs : List Msg) (m : Msg), (by_candidate_replies msgs m).Sublist msgs)
    ∧ (∀ (gu : String → String) (name url : String) (msg : Msg)
        (channel_name user_name : String) (replies : List Msg), replies ≠ [] →
        candidate_block_second gu name url msg channel_name user_name replies
          = ["Candidate: " ++ name ++ " (" ++ url ++ ")",
             "Submission: " ++ msg.text,
             "Channel: " ++ channel_name,
             "Submitted by: " ++ user_name,
             "Timestamp: " ++ msg.datetime.getD (msg.ts.getD "")]
            ++ ["Feedback/Updates:"]
            ++ replies.map (fun reply => "- " ++ gu reply.user ++ ": " ++ reply.text
                ++ " [" ++ reply.datetime.getD (reply.ts.getD "") ++ "]")) := by
  refine ⟨?_, ?_, ?_⟩
  · intro msgs b hb
    unfold thread_blocks at hb
    rcases List.mem_filterMap.mp hb with ⟨e, he, hfe⟩
    cases hfind : (sort_by_ts e.2).find? (fun m => decide (m.ts = e.1)) with
    | none =>
      rw [hfind] at hfe
      simp at hfe
    | some parent =>
      rw [hfind] at hfe
      simp only [Option.some.injEq] at hfe
      subst hfe
      have hsorted : List.Pairwise ts_le (sort_by_ts e.2) :=
        List.sorted_insertionSort ts_le e.2
      exact hsorted.filter _
  · intro msgs m
    exact List.filter_sublist msgs
  · intro gu name url msg channel_name user_name replies hne
    unfold candidate_block_second
    rw [if_neg hne]

/-- Witness for `c8_ordering_split` on the concrete corpus
`[msg_anchor, msg_late, msg_early]`: sorted thread-block replies for
the all-thread-replies builder, store-order replies and their rendered
lines for the by-candidate builder. -/
theorem c8_ordering_split_witness :
    (ThreadBlock.mk (some "1") msg_anchor [msg_early, msg_late]).replies.Pairwise ts_le
    ∧ (by_candidate_replies [msg_anchor, msg_late, msg_early] msg_anchor).Sublist
        [msg_anchor, msg_late, msg_early]
    ∧ candidate_block_second (fun u => u) "Jane Doe" url_jane msg_anchor "acme" "dk"
        [msg_late, msg_early]
      = ["Candidate: " ++ "Jane Doe" ++ " (" ++ url_jane ++ ")",
         "Submission: " ++ msg_anchor.text,
         "Channel: " ++ "acme",
         "Submitted by: " ++ "dk",
         "Timestamp: " ++ msg_anchor.datetime.getD (msg_anchor.ts.getD "")]
        ++ ["Feedback/Updates:"]
        ++ [msg_late, msg_early].map (fun reply =>
            "- " ++ (fun u : String => u) reply.user ++ ": " ++ reply.text
              ++ " [" ++ reply.datetime.getD (reply.ts.getD "") ++ "]") :=
  ⟨c8_ordering_split.1 [msg_anchor, msg_late, msg_early]
      ⟨some "1", msg_anchor, [msg_early, msg_late]⟩ (by decide),
   c8_ordering_split.2.1 [msg_anchor, msg_late, msg_early] msg_anchor,
   c8_ordering_split.2.2 (fun u => u) "Jane Doe" url_jane msg_anchor "acme" "dk"
      [msg_late, msg_early] (by decide)⟩

/-- Witness for `c9_default_range_raises` at a concrete aware "now". -/
theorem c9_default_range_raises_witness :
    get_date_range none none ⟨20003, 13, 5, 2, 123456, true⟩
      = Except.error "ValueError: Not naive datetime (tzinfo is already set)"
    ∧ weekday (replace_hms (sub_days ⟨20003, 13, 5, 2, 123456, true⟩
        (weekday ⟨20003, 13, 5, 2, 123456, true⟩ + 7)) 0 0 0) = 0 :=
  ⟨(c9_default_range_raises ⟨20003, 13, 5, 2, 123456, true⟩ none rfl).1,
   (c9_default_range_raises ⟨20003, 13, 5, 2, 123456, true⟩ none rfl).2.1⟩

end SlackRag
